import Mathlib

/-!
Shallow embedding of the cost aggregation core of `src/tws-dashboard.js`
(the `processCSVData` handler of the Azure cost dashboard component) together
with the fragments of JavaScript / lodash semantics it relies on:
property-based `_.sumBy`, `_.groupBy` (whose object keys stringify `undefined`
and `null`), `_.orderBy` (stable), `_.maxBy`, `||`-defaulting and the
`try`/`catch` boundary.  Machine numbers are modelled by `ℚ`; `NaN` is a
separate constructor.  JS double shortest-round-trip formatting, exponent /
hex numeric string literals, `Infinity`, and the JS-object reordering of
integer-like group keys are outside the modelled fragment and are noted at
the definitions concerned; no claim below depends on them.
-/

set_option maxRecDepth 8000

namespace TwsDashboard

/-- Values that the CSV decoder (PapaParse with `dynamicTyping`) can leave in
the `costInBillingCurrency` field: an absent field (`undefined`), `null`
(empty cell), a number, or a non-numeric string; `nan` arises only from
arithmetic on non-numeric values. -/
inductive CostVal where
  | jsUndefined
  | null
  | num (q : ℚ)
  | str (s : String)
  | nan
deriving DecidableEq

/-- Values of the string-label fields (`date`, `serviceFamily`, `resourceId`,
`resourceGroupName`): absent, `null`, or a string. -/
inductive FieldVal where
  | jsUndefined
  | null
  | str (s : String)
deriving DecidableEq

/-- `_.groupBy` stores its groups in a JS object, whose keys are strings:
`undefined` stringifies to `"undefined"` and `null` to `"null"`. -/
def keyString : FieldVal → String
  | .jsUndefined => "undefined"
  | .null => "null"
  | .str s => s

/-- One decoded CSV row, with the five fields the component reads. -/
structure UsageRecord where
  date : FieldVal
  costInBillingCurrency : CostVal
  serviceFamily : FieldVal
  resourceId : FieldVal
  resourceGroupName : FieldVal
deriving DecidableEq

def digitsVal (ds : List Char) : Nat :=
  ds.foldl (fun n c => 10 * n + (c.toNat - 48)) 0

def isDig (c : Char) : Bool := decide ('0' ≤ c) && decide (c ≤ '9')

/-- Unsigned decimal literal: digits, optionally a dot and further digits.
Exponents, hex/octal/binary literals and `Infinity` are outside the modelled
fragment of JS `ToNumber` and parse as `none` (NaN). -/
def parseDecimal (cs : List Char) : Option ℚ :=
  let ip := cs.takeWhile isDig
  let rest := cs.dropWhile isDig
  match rest with
  | [] => if ip.isEmpty then none else some (digitsVal ip)
  | '.' :: frac =>
      if frac.all isDig && !(ip.isEmpty && frac.isEmpty) then
        some ((digitsVal ip : ℚ) + (digitsVal frac : ℚ) / (10 : ℚ) ^ frac.length)
      else none
  | _ => none

/-- JS `ToNumber` on a string: trim spaces, the empty string is 0, otherwise
an optionally signed decimal literal; anything else is NaN (`none`). -/
def strToNum (s : String) : Option ℚ :=
  let cs := ((s.data.dropWhile (· = ' ')).reverse.dropWhile (· = ' ')).reverse
  match cs with
  | [] => some 0
  | '-' :: rest => (parseDecimal rest).map (fun q => -q)
  | '+' :: rest => parseDecimal rest
  | _ => parseDecimal cs

/-- JS `ToNumber` coercion; `none` stands for NaN. -/
def toNumber : CostVal → Option ℚ
  | .jsUndefined => none
  | .null => some 0
  | .num q => some q
  | .str s => strToNum s
  | .nan => none

/-- JS number-to-string.  Integers print exactly; the JS shortest-round-trip
formatting of non-integer doubles is not representable over `ℚ` and is
approximated (no claim depends on it). -/
def numToJSString (q : ℚ) : String :=
  if q.den = 1 then toString q.num else toString q.num ++ "/" ++ toString q.den

def toJSString : CostVal → String
  | .jsUndefined => "undefined"
  | .null => "null"
  | .num q => numToJSString q
  | .str s => s
  | .nan => "NaN"

/-- JS `+`: if either operand is a string the result is string concatenation,
otherwise both operands are coerced to numbers, with NaN propagating. -/
def jsAdd (a b : CostVal) : CostVal :=
  match a, b with
  | .str _, _ | _, .str _ => .str (toJSString a ++ toJSString b)
  | _, _ =>
      match toNumber a, toNumber b with
      | some x, some y => .num (x + y)
      | _, _ => .nan

/-- One iteration of lodash `baseSum`: an `undefined` value is skipped, the
first non-`undefined` value replaces an `undefined` accumulator, and later
values are added with JS `+`. -/
def sumStep (acc c : CostVal) : CostVal :=
  match c with
  | .jsUndefined => acc
  | _ =>
      match acc with
      | .jsUndefined => c
      | _ => jsAdd acc c

/-- lodash `baseSum`: left fold of `sumStep` starting from `undefined`. -/
def baseSum (l : List CostVal) : CostVal := l.foldl sumStep .jsUndefined

/-- lodash `_.sumBy(items, 'costInBillingCurrency')` (returns the number 0 on
an empty array, otherwise `baseSum` of the extracted field values). -/
def sumByCost (l : List UsageRecord) : CostVal :=
  if l.isEmpty then .num 0 else baseSum (l.map (·.costInBillingCurrency))

/-- JS `x || 0`: among the modelled values, `undefined`, `null`, `NaN`, `0`
and the empty string are falsy. -/
def orZero (c : CostVal) : CostVal :=
  match c with
  | .jsUndefined | .null | .nan => .num 0
  | .num q => if q = 0 then .num 0 else .num q
  | .str s => if s = "" then .num 0 else .str s

/-- JS `>`: two strings compare lexicographically; otherwise both sides are
coerced to numbers and any NaN makes the comparison false. -/
def jsGt (a b : CostVal) : Bool :=
  match a, b with
  | .str s1, .str s2 => decide (s2 < s1)
  | _, _ =>
      match toNumber a, toNumber b with
      | some x, some y => decide (y < x)
      | _, _ => false

/-- lodash `compareAscending`, specialised to the value shapes that reach the
sort sites here (numbers and non-empty strings; `null`, `undefined`, symbols
and NaN cannot occur there after `|| 0`). -/
def cmpAscV (a b : CostVal) : Int :=
  if jsGt a b then 1 else if jsGt b a then -1 else 0

/-- JS `s || d` for a string `s`: only the empty string is falsy. -/
def jsOrStr (s d : String) : String := if s = "" then d else s

/-- JS division of a value by an integer count (the count is positive at the
one call site, guarded by a length check; `Infinity` is not modelled). -/
def jsDiv (a : CostVal) (n : Nat) : CostVal :=
  if n = 0 then .nan
  else
    match toNumber a with
    | some q => .num (q / n)
    | none => .nan

/-- An entry of `dailyCosts` / the `peakUsage` object. -/
structure DailyEntry where
  date : String
  cost : CostVal
deriving DecidableEq

/-- An entry of `serviceBreakdown` / the `topService` object. -/
structure NamedValue where
  name : String
  value : CostVal
deriving DecidableEq

/-- An entry of `resourceGroupCosts` / the `resourceCosts` object. -/
structure NamedCost where
  name : String
  cost : CostVal
deriving DecidableEq

/-- The fixed-shape summary passed to `setDashboardData`. -/
structure Summary where
  totalCost : CostVal
  dailyAverage : CostVal
  serviceBreakdown : List NamedValue
  dailyCosts : List DailyEntry
  peakUsage : DailyEntry
  resourceCosts : NamedCost
  resourceGroupCosts : List NamedCost
  topService : NamedValue
deriving DecidableEq

/-- `_.groupBy`: groups listed in first-encounter key order, members in input
order.  (The JS-object reordering of integer-like keys is not modelled; every
downstream consumer either re-sorts the groups or is order-insensitive in the
claims below.) -/
def groupByKey {α : Type} (k : α → String) : List α → List (String × List α)
  | [] => []
  | x :: xs =>
      (k x, x :: xs.filter (fun y => decide (k y = k x))) ::
        groupByKey k (xs.filter (fun y => !decide (k y = k x)))
termination_by l => l.length
decreasing_by
  simp only [List.length_cons]
  exact Nat.lt_succ_of_le (xs.length_filter_le _)

/-- Insertion step of a stable sort: `x` is placed before the first element
`y` with `le x y`. -/
def insertS {α : Type} (le : α → α → Bool) (x : α) : List α → List α
  | [] => [x]
  | y :: ys => if le x y then x :: y :: ys else y :: insertS le x ys

/-- Stable sort, modelling lodash `_.orderBy` (which is stable by
construction: it breaks comparator ties by original index). -/
def sortS {α : Type} (le : α → α → Bool) : List α → List α
  | [] => []
  | x :: xs => insertS le x (sortS le xs)

/-- One step of lodash `baseExtremum` with the `baseGt` comparator: `null`
and `undefined` candidates are skipped, a NaN candidate cannot initialise the
running maximum, and a candidate replaces the running maximum only when
strictly greater (so ties keep the earlier entry). -/
def maxByStep (acc : Option DailyEntry) (e : DailyEntry) : Option DailyEntry :=
  if e.cost = .jsUndefined ∨ e.cost = .null then acc
  else
    match acc with
    | none => if e.cost = .nan then none else some e
    | some m => if jsGt e.cost m.cost then some e else acc

/-- lodash `_.maxBy(dailyCosts, 'cost')`. -/
def maxByCost (l : List DailyEntry) : Option DailyEntry := l.foldl maxByStep none

/-- Ascending comparator of `orderBy(['date'])`: `a` may stay before `b`
unless `a.date > b.date` (JS string comparison is lexicographic). -/
def dateLe (a b : DailyEntry) : Bool := !decide (b.date < a.date)

/-- Descending comparator of `orderBy(['value'], ['desc'])`. -/
def descLeV (a b : NamedValue) : Bool := decide (0 ≤ cmpAscV a.value b.value)

/-- Descending comparator of `orderBy(['cost'], ['desc'])`. -/
def descLeC (a b : NamedCost) : Bool := decide (0 ≤ cmpAscV a.cost b.cost)

/-- Line 28: `_.sumBy(data, 'costInBillingCurrency') || 0`. -/
def totalCostOf (data : List UsageRecord) : CostVal := orZero (sumByCost data)

/-- Lines 31–38: group by `date`, label `date || 'Unknown'`, sum each group
with `|| 0`, order ascending by date. -/
def dailyCostsOf (data : List UsageRecord) : List DailyEntry :=
  sortS dateLe ((groupByKey (fun r => keyString r.date) data).map fun g =>
    { date := jsOrStr g.1 "Unknown", cost := orZero (sumByCost g.2) })

/-- Line 41: `dailyCosts.length > 0 ? totalCost / dailyCosts.length : 0`. -/
def dailyAverageOf (data : List UsageRecord) : CostVal :=
  if 0 < (dailyCostsOf data).length then
    jsDiv (totalCostOf data) (dailyCostsOf data).length
  else .num 0

/-- Line 44: `_.maxBy(dailyCosts, 'cost') || { date: 'N/A', cost: 0 }`. -/
def peakUsageOf (data : List UsageRecord) : DailyEntry :=
  (maxByCost (dailyCostsOf data)).getD { date := "N/A", cost := .num 0 }

/-- Lines 47–55: group by `serviceFamily`, label `name || 'Others'`, sum with
`|| 0`, drop names literally `"null"`/`"undefined"` and non-positive values,
order descending by value. -/
def serviceBreakdownOf (data : List UsageRecord) : List NamedValue :=
  sortS descLeV
    (((groupByKey (fun r => keyString r.serviceFamily) data).map fun g =>
        { name := jsOrStr g.1 "Others", value := orZero (sumByCost g.2) }).filter fun e =>
      decide (e.name ≠ "null") && decide (e.name ≠ "undefined") && jsGt e.value (.num 0))

/-- Lines 58–66: group by `resourceId`, name = last `/`-segment (or
`"Unnamed"` when empty) truncated to 30 characters, sum with `|| 0`, drop
non-positive costs, order descending by cost. -/
def resourceListOf (data : List UsageRecord) : List NamedCost :=
  sortS descLeC
    (((groupByKey (fun r => keyString r.resourceId) data).map fun g =>
        { name := (jsOrStr ((g.1.splitOn "/").getLastD "") "Unnamed").take 30
          cost := orZero (sumByCost g.2) }).filter fun e => jsGt e.cost (.num 0))

/-- Lines 69–82: group by `resourceGroupName`, label `(name ||
'Unassigned').substring(0, 30)`, sum with `|| 0`, drop literal
`"null"`/`"undefined"` names and non-positive costs, order descending by
cost, take 5. -/
def resourceGroupCostsOf (data : List UsageRecord) : List NamedCost :=
  (sortS descLeC
    (((groupByKey (fun r => keyString r.resourceGroupName) data).map fun g =>
        { name := (jsOrStr g.1 "Unassigned").take 30
          cost := orZero (sumByCost g.2) }).filter fun e =>
      decide (e.name ≠ "null") && decide (e.name ≠ "undefined") &&
        jsGt e.cost (.num 0))).take 5

/-- The whole `try` body of `processCSVData`, lines 25–93, as a pure
aggregation from the decoded record list to the Summary it passes to
`setDashboardData`. -/
def aggregate (data : List UsageRecord) : Summary :=
  { totalCost := totalCostOf data
    dailyAverage := dailyAverageOf data
    serviceBreakdown := serviceBreakdownOf data
    dailyCosts := dailyCostsOf data
    peakUsage := peakUsageOf data
    resourceCosts := (resourceListOf data).headD { name := "N/A", cost := .num 0 }
    resourceGroupCosts := resourceGroupCostsOf data
    topService := (serviceBreakdownOf data).headD { name := "N/A", value := .num 0 } }

/-- The argument of `processCSVData`: either a `null` results object (the one
value on which the `try` body faults, at `results.data`) or an object whose
`data` field may be absent (then defaulted by `results.data || []`). -/
inductive ParseResults where
  | nullResults
  | obj (data : Option (List UsageRecord))

/-- The default structure set by the `catch` branch, lines 97–106. -/
def defaultSummary : Summary :=
  { totalCost := .num 0
    dailyAverage := .num 0
    serviceBreakdown := []
    dailyCosts := []
    peakUsage := { date := "N/A", cost := .num 0 }
    resourceCosts := { name := "N/A", cost := .num 0 }
    resourceGroupCosts := []
    topService := { name := "N/A", value := .num 0 } }

/-- The `try` body: reading `results.data` throws a `TypeError` when
`results` is `null`; on an object, `results.data || []` defaults an absent
field and the aggregation itself is total. -/
def tryAggregate : ParseResults → Except String Summary
  | .nullResults => .error "Cannot read properties of null (reading 'data')"
  | .obj d => .ok (aggregate (d.getD []))

/-- The component state written by `processCSVData`: the dashboard data and
the reported error, if any. -/
structure DashState where
  dashboardData : Summary
  error : Option String
deriving DecidableEq

/-- Lines 23–108: the `try`/`catch` boundary.  On success the Summary is
stored and no error is reported; on a fault the catch branch reports the
message and substitutes `defaultSummary`. -/
def processCSVData (results : ParseResults) : DashState :=
  match tryAggregate results with
  | .ok s => { dashboardData := s, error := none }
  | .error e =>
      { dashboardData := defaultSummary
        error := some ("Error processing data: " ++ e) }

/-- Cost values that the decoder produces for a numeric or empty cost column:
a number, `null`, or absent — i.e. not a string and not NaN. -/
def isNumCost : CostVal → Bool
  | .str _ => false
  | .nan => false
  | _ => true

/-- Every record's cost field is numeric, `null` or absent. -/
def NumericCosts (data : List UsageRecord) : Prop :=
  ∀ r ∈ data, isNumCost r.costInBillingCurrency = true

instance (data : List UsageRecord) : Decidable (NumericCosts data) :=
  List.decidableBAll _ data

/-- The rational denoted by a cost value, with absent/`null` contributing 0
(only ever applied under `NumericCosts`). -/
def costQ : CostVal → ℚ
  | .num q => q
  | _ => 0

/-! ### Lemmas about the stable sort -/

theorem insertS_perm {α : Type} (le : α → α → Bool) (x : α) (l : List α) :
    List.Perm (insertS le x l) (x :: l) := by
  induction l with
  | nil => simp [insertS]
  | cons y ys ih =>
    cases h : le x y with
    | true => simp [insertS, h]
    | false =>
      simp only [insertS, h, Bool.false_eq_true, if_false]
      exact List.Perm.trans (List.Perm.cons y ih) (List.Perm.swap x y ys)

theorem sortS_perm {α : Type} (le : α → α → Bool) (l : List α) :
    List.Perm (sortS le l) l := by
  induction l with
  | nil => simp [sortS]
  | cons x xs ih =>
    exact List.Perm.trans (insertS_perm le x (sortS le xs)) (List.Perm.cons x ih)

theorem mem_sortS {α : Type} (le : α → α → Bool) (l : List α) (a : α) :
    a ∈ sortS le l ↔ a ∈ l := (sortS_perm le l).mem_iff

theorem mem_insertS {α : Type} (le : α → α → Bool) (x : α) (l : List α) (a : α) :
    a ∈ insertS le x l ↔ a = x ∨ a ∈ l := by
  rw [(insertS_perm le x l).mem_iff]
  simp

theorem pairwise_insertS {α : Type} (le : α → α → Bool) (P : α → Prop)
    (htot : ∀ a b, P a → P b → le a b = true ∨ le b a = true)
    (htr : ∀ a b c, P a → P b → P c → le a b = true → le b c = true → le a c = true)
    (x : α) (hx : P x) (l : List α) (hl : ∀ a ∈ l, P a)
    (hs : l.Pairwise (fun a b => le a b = true)) :
    (insertS le x l).Pairwise (fun a b => le a b = true) := by
  induction l with
  | nil => simp [insertS]
  | cons y ys ih =>
    have hy : P y := hl y (by simp)
    have hys : ∀ a ∈ ys, P a := fun a ha => hl a (by simp [ha])
    rw [List.pairwise_cons] at hs
    cases h : le x y with
    | true =>
      simp only [insertS, h, if_true]
      rw [List.pairwise_cons]
      refine ⟨?_, List.Pairwise.cons hs.1 hs.2⟩
      intro z hz
      rcases List.mem_cons.mp hz with rfl | hz
      · exact h
      · exact htr x y z hx hy (hys z hz) h (hs.1 z hz)
    | false =>
      simp only [insertS, h, Bool.false_eq_true, if_false]
      rw [List.pairwise_cons]
      refine ⟨?_, ih hys hs.2⟩
      intro z hz
      rcases (mem_insertS le x ys z).mp hz with rfl | hz
      · rcases htot z y hx hy with h1 | h1
        · exact absurd h1 (by simp [h])
        · exact h1
      · exact hs.1 z hz

theorem sortS_pairwise {α : Type} (le : α → α → Bool) (P : α → Prop)
    (htot : ∀ a b, P a → P b → le a b = true ∨ le b a = true)
    (htr : ∀ a b c, P a → P b → P c → le a b = true → le b c = true → le a c = true)
    (l : List α) (hl : ∀ a ∈ l, P a) :
    (sortS le l).Pairwise (fun a b => le a b = true) := by
  induction l with
  | nil => simp [sortS]
  | cons x xs ih =>
    have hmem : ∀ a ∈ sortS le xs, P a :=
      fun a ha => hl a (by simp [(mem_sortS le xs a).mp ha])
    exact pairwise_insertS le P htot htr x (hl x (by simp)) _ hmem
      (ih fun a ha => hl a (by simp [ha]))

/-! ### Lemmas about `groupByKey` -/

theorem groupByKey_member_mem {α : Type} (k : α → String) (l : List α) :
    ∀ g ∈ groupByKey k l, ∀ r ∈ g.2, r ∈ l := by
  induction l using groupByKey.induct k with
  | case1 => intro g hg; simp [groupByKey] at hg
  | case2 x xs ih =>
    intro g hg r hr
    rw [groupByKey] at hg
    rcases List.mem_cons.mp hg with rfl | hg
    · rcases List.mem_cons.mp hr with rfl | hr
      · simp
      · exact List.mem_cons_of_mem x (List.mem_of_mem_filter hr)
    · exact List.mem_cons_of_mem x (List.mem_of_mem_filter (ih g hg r hr))

theorem groupByKey_exists_key {α : Type} (k : α → String) (l : List α) :
    ∀ r ∈ l, ∃ g ∈ groupByKey k l, g.1 = k r := by
  induction l using groupByKey.induct k with
  | case1 => intro r hr; simp at hr
  | case2 x xs ih =>
    intro r hr
    rcases List.mem_cons.mp hr with rfl | hr
    · exact ⟨(k r, r :: xs.filter (fun y => decide (k y = k r))), by rw [groupByKey]; simp, rfl⟩
    · by_cases hk : k r = k x
      · exact ⟨(k x, x :: xs.filter (fun y => decide (k y = k x))), by rw [groupByKey]; simp, hk.symm⟩
      · obtain ⟨g, hg, hgk⟩ := ih r (List.mem_filter.mpr ⟨hr, by simp [hk]⟩)
        exact ⟨g, by rw [groupByKey]; exact List.mem_cons_of_mem _ hg, hgk⟩

theorem groupByKey_key_of_mem {α : Type} (k : α → String) (l : List α) :
    ∀ g ∈ groupByKey k l, ∃ r ∈ l, g.1 = k r := by
  induction l using groupByKey.induct k with
  | case1 => intro g hg; simp [groupByKey] at hg
  | case2 x xs ih =>
    intro g hg
    rw [groupByKey] at hg
    rcases List.mem_cons.mp hg with rfl | hg
    · exact ⟨x, by simp, rfl⟩
    · obtain ⟨r, hr, hk⟩ := ih g hg
      exact ⟨r, List.mem_cons_of_mem x (List.mem_of_mem_filter hr), hk⟩

theorem groupByKey_sum {α : Type} (k : α → String) (f : α → ℚ) (l : List α) :
    ((groupByKey k l).map (fun g => (g.2.map f).sum)).sum = (l.map f).sum := by
  induction l using groupByKey.induct k with
  | case1 => simp [groupByKey]
  | case2 x xs ih =>
    rw [groupByKey]
    have hsplit :
        ((xs.filter (fun y => decide (k y = k x))).map f).sum +
          ((xs.filter (fun y => !decide (k y = k x))).map f).sum = (xs.map f).sum := by
      rw [← List.sum_append, ← List.map_append]
      exact ((xs.filter_append_perm _).map f).sum_eq
    simp only [List.map_cons, List.sum_cons, ih]
    rw [← hsplit]
    ring

theorem groupByKey_filter_ne {α : Type} (k : α → String) (K : String) (l : List α) :
    groupByKey k (l.filter fun r => !decide (k r = K)) =
      (groupByKey k l).filter (fun g => !decide (g.1 = K)) := by
  induction l using groupByKey.induct k with
  | case1 => simp [groupByKey]
  | case2 x xs ih =>
    by_cases hx : k x = K
    · subst hx
      have h1 : (x :: xs).filter (fun r => !decide (k r = k x)) =
          xs.filter (fun r => !decide (k r = k x)) := by simp
      rw [h1]
      conv_rhs => rw [groupByKey]
      have h2 : ((k x, x :: xs.filter (fun y => decide (k y = k x))) ::
            groupByKey k (xs.filter (fun y => !decide (k y = k x)))).filter
            (fun g => !decide (g.1 = k x)) =
          (groupByKey k (xs.filter (fun y => !decide (k y = k x)))).filter
            (fun g => !decide (g.1 = k x)) := by simp
      rw [h2]
      have h3 : ∀ g ∈ groupByKey k (xs.filter (fun y => !decide (k y = k x))),
          (fun g => !decide (g.1 = k x)) g = true := by
        intro g hg
        obtain ⟨r, hr, hk⟩ := groupByKey_key_of_mem k _ g hg
        have := List.of_mem_filter hr
        simp only [Bool.not_eq_true', decide_eq_false_iff_not] at this
        simp [hk, this]
      rw [List.filter_eq_self.mpr h3]
    · have h1 : (x :: xs).filter (fun r => !decide (k r = K)) =
          x :: xs.filter (fun r => !decide (k r = K)) := by simp [hx]
      rw [h1, groupByKey]
      conv_rhs => rw [groupByKey]
      have h2 : ((k x, x :: xs.filter (fun y => decide (k y = k x))) ::
            groupByKey k (xs.filter (fun y => !decide (k y = k x)))).filter
            (fun g => !decide (g.1 = K)) =
          (k x, x :: xs.filter (fun y => decide (k y = k x))) ::
            (groupByKey k (xs.filter (fun y => !decide (k y = k x)))).filter
              (fun g => !decide (g.1 = K)) := by simp [hx]
      rw [h2]
      have hff : (xs.filter (fun r => !decide (k r = K))).filter
            (fun y => decide (k y = k x)) = xs.filter (fun y => decide (k y = k x)) := by
        rw [List.filter_filter]
        apply List.filter_congr
        intro y _
        by_cases hy : k y = k x
        · simp [hy, hx]
        · simp [hy]
      have hgg : (xs.filter (fun r => !decide (k r = K))).filter
            (fun y => !decide (k y = k x)) =
          (xs.filter (fun y => !decide (k y = k x))).filter (fun r => !decide (k r = K)) := by
        rw [List.filter_filter, List.filter_filter]
        apply List.filter_congr
        intro y _
        rw [Bool.and_comm]
      rw [hff, hgg, ih]

/-! ### The sum of numeric-or-absent cost values -/

theorem jsAdd_numeric (a b : CostVal) (ha : isNumCost a = true) (hb : isNumCost b = true) :
    jsAdd a b = .num (costQ a + costQ b) ∨ (a = .jsUndefined ∨ b = .jsUndefined) := by
  cases a <;> cases b <;> simp_all [jsAdd, toNumber, isNumCost, costQ]

theorem sumStep_numeric (acc c : CostVal) (hacc : isNumCost acc = true)
    (hc : isNumCost c = true) :
    isNumCost (sumStep acc c) = true ∧
      costQ (sumStep acc c) = costQ acc + costQ c := by
  cases c <;> cases acc <;> simp_all [sumStep, jsAdd, toNumber, isNumCost, costQ]

theorem foldl_sumStep_numeric (cs : List CostVal) :
    ∀ acc, isNumCost acc = true → (∀ c ∈ cs, isNumCost c = true) →
      isNumCost (cs.foldl sumStep acc) = true ∧
        costQ (cs.foldl sumStep acc) = costQ acc + (cs.map costQ).sum := by
  induction cs with
  | nil => intro acc h _; simpa using h
  | cons c cs ih =>
    intro acc hacc hall
    obtain ⟨h1, h2⟩ := sumStep_numeric acc c hacc (hall c (by simp))
    obtain ⟨h3, h4⟩ := ih (sumStep acc c) h1 (fun x hx => hall x (by simp [hx]))
    refine ⟨by simpa using h3, ?_⟩
    rw [List.foldl_cons, h4, h2, List.map_cons, List.sum_cons]
    ring

theorem orZero_numeric (c : CostVal) (h : isNumCost c = true) :
    orZero c = .num (costQ c) := by
  cases c with
  | num q =>
    by_cases hq : q = 0 <;> simp [orZero, costQ, hq]
  | _ => simp_all [orZero, costQ, isNumCost]

/-- Key computation: under numeric-or-absent costs, `sumBy(...) || 0` is the
number that sums the costs, with absent and `null` contributing 0. -/
theorem sumByCost_numeric (l : List UsageRecord)
    (h : ∀ r ∈ l, isNumCost r.costInBillingCurrency = true) :
    orZero (sumByCost l) =
      .num ((l.map (fun r => costQ r.costInBillingCurrency)).sum) := by
  by_cases hl : l.isEmpty
  · rw [List.isEmpty_iff] at hl
    subst hl
    simp [sumByCost, orZero]
  · have hall : ∀ c ∈ l.map (·.costInBillingCurrency), isNumCost c = true := by
      intro c hc
      obtain ⟨r, hr, rfl⟩ := List.mem_map.mp hc
      exact h r hr
    obtain ⟨h1, h2⟩ := foldl_sumStep_numeric (l.map (·.costInBillingCurrency)) .jsUndefined rfl hall
    rw [sumByCost, if_neg (by simp [hl]), baseSum, orZero_numeric _ h1, h2]
    simp [costQ, List.map_map]
    rfl

/-! ### The running maximum (`_.maxBy`) on numeric entries -/

theorem maxBy_go_spec (l : List DailyEntry) :
    ∀ m : DailyEntry, (∀ e ∈ m :: l, ∃ q, e.cost = CostVal.num q) →
      ∃ r l1 l2, l.foldl maxByStep (some m) = some r ∧
        m :: l = l1 ++ r :: l2 ∧
        (∀ e ∈ l1, costQ e.cost < costQ r.cost) ∧
        (∀ e ∈ m :: l, costQ e.cost ≤ costQ r.cost) := by
  induction l with
  | nil =>
    intro m _
    exact ⟨m, [], [], rfl, rfl, by simp, by simp⟩
  | cons e es ih =>
    intro m hnum
    obtain ⟨qm, hqm⟩ := hnum m (by simp)
    obtain ⟨qe, hqe⟩ := hnum e (by simp)
    rw [List.foldl_cons]
    have hstep : maxByStep (some m) e = if qm < qe then some e else some m := by
      simp [maxByStep, hqm, hqe, jsGt, toNumber]
    by_cases hlt : qm < qe
    · rw [hstep, if_pos hlt]
      obtain ⟨r, l1, l2, hf, hsplit, hl1, hmax⟩ := ih e (by
        intro x hx
        rcases List.mem_cons.mp hx with rfl | hx
        · exact ⟨qe, hqe⟩
        · exact hnum x (by simp [hx]))
      refine ⟨r, m :: l1, l2, hf, by rw [List.cons_append, ← hsplit], ?_, ?_⟩
      · intro x hx
        rcases List.mem_cons.mp hx with rfl | hx
        · calc costQ x.cost = qm := by rw [hqm]; rfl
            _ < qe := hlt
            _ = costQ e.cost := by rw [hqe]; rfl
            _ ≤ costQ r.cost := hmax e (by simp)
        · exact hl1 x hx
      · intro x hx
        rcases List.mem_cons.mp hx with rfl | hx
        · calc costQ x.cost = qm := by rw [hqm]; rfl
            _ ≤ qe := le_of_lt hlt
            _ = costQ e.cost := by rw [hqe]; rfl
            _ ≤ costQ r.cost := hmax e (by simp)
        · exact hmax x hx
    · rw [hstep, if_neg hlt]
      obtain ⟨r, l1, l2, hf, hsplit, hl1, hmax⟩ := ih m (by
        intro x hx
        rcases List.mem_cons.mp hx with rfl | hx
        · exact ⟨qm, hqm⟩
        · exact hnum x (by simp [hx]))
      cases l1 with
      | nil =>
        simp only [List.nil_append] at hsplit
        have hrm : r = m := by
          have := hsplit
          rw [List.cons.injEq] at this
          exact this.1.symm
        refine ⟨r, [], e :: es, hf, by rw [hrm]; simp, by simp, ?_⟩
        intro x hx
        rcases List.mem_cons.mp hx with rfl | hx
        · exact hmax x (by simp)
        · rcases List.mem_cons.mp hx with rfl | hx
          · calc costQ x.cost = qe := by rw [hqe]; rfl
              _ ≤ qm := le_of_not_lt hlt
              _ = costQ m.cost := by rw [hqm]; rfl
              _ ≤ costQ r.cost := hmax m (by simp)
          · exact hmax x (by simp [hx])
      | cons a l1' =>
        rw [List.cons_append, List.cons.injEq] at hsplit
        obtain ⟨rfl, hes⟩ := hsplit
        have hmlt : costQ m.cost < costQ r.cost := hl1 m (by simp)
        refine ⟨r, m :: e :: l1', l2, hf, by rw [hes]; simp, ?_, ?_⟩
        · intro x hx
          rcases List.mem_cons.mp hx with rfl | hx
          · exact hmlt
          · rcases List.mem_cons.mp hx with rfl | hx
            · calc costQ x.cost = qe := by rw [hqe]; rfl
                _ ≤ qm := le_of_not_lt hlt
                _ = costQ m.cost := by rw [hqm]; rfl
                _ < costQ r.cost := hmlt
            · exact hl1 x (by simp [hx])
        · intro x hx
          rcases List.mem_cons.mp hx with rfl | hx
          · exact hmax x (by simp)
          · rcases List.mem_cons.mp hx with rfl | hx
            · calc costQ x.cost = qe := by rw [hqe]; rfl
                _ ≤ qm := le_of_not_lt hlt
                _ = costQ m.cost := by rw [hqm]; rfl
                _ ≤ costQ r.cost := le_of_lt hmlt
            · exact hmax x (by simp [hx])

/-! ### Projections of `aggregate` and basic membership facts -/

@[simp] theorem aggregate_totalCost (data : List UsageRecord) :
    (aggregate data).totalCost = totalCostOf data := rfl

@[simp] theorem aggregate_dailyAverage (data : List UsageRecord) :
    (aggregate data).dailyAverage = dailyAverageOf data := rfl

@[simp] theorem aggregate_dailyCosts (data : List UsageRecord) :
    (aggregate data).dailyCosts = dailyCostsOf data := rfl

@[simp] theorem aggregate_peakUsage (data : List UsageRecord) :
    (aggregate data).peakUsage = peakUsageOf data := rfl

@[simp] theorem aggregate_serviceBreakdown (data : List UsageRecord) :
    (aggregate data).serviceBreakdown = serviceBreakdownOf data := rfl

@[simp] theorem aggregate_resourceGroupCosts (data : List UsageRecord) :
    (aggregate data).resourceGroupCosts = resourceGroupCostsOf data := rfl

@[simp] theorem aggregate_resourceCosts (data : List UsageRecord) :
    (aggregate data).resourceCosts = (resourceListOf data).headD { name := "N/A", cost := .num 0 } := rfl

@[simp] theorem aggregate_topService (data : List UsageRecord) :
    (aggregate data).topService = (serviceBreakdownOf data).headD { name := "N/A", value := .num 0 } := rfl

theorem mem_dailyCostsOf (data : List UsageRecord) (e : DailyEntry)
    (he : e ∈ dailyCostsOf data) :
    ∃ g ∈ groupByKey (fun r => keyString r.date) data,
      e = { date := jsOrStr g.1 "Unknown", cost := orZero (sumByCost g.2) } := by
  rw [dailyCostsOf, mem_sortS] at he
  obtain ⟨g, hg, hge⟩ := List.mem_map.mp he
  exact ⟨g, hg, hge.symm⟩

theorem dailyCostsOf_numeric (data : List UsageRecord) (h : NumericCosts data) :
    ∀ e ∈ dailyCostsOf data, ∃ q, e.cost = CostVal.num q := by
  intro e he
  obtain ⟨g, hg, rfl⟩ := mem_dailyCostsOf data e he
  exact ⟨_, sumByCost_numeric g.2
    (fun r hr => h r (groupByKey_member_mem _ data g hg r hr))⟩

theorem mem_serviceBreakdownOf (data : List UsageRecord) (e : NamedValue)
    (he : e ∈ serviceBreakdownOf data) :
    e.name ≠ "null" ∧ e.name ≠ "undefined" ∧ jsGt e.value (.num 0) = true ∧
      ∃ g ∈ groupByKey (fun r => keyString r.serviceFamily) data,
        e = { name := jsOrStr g.1 "Others", value := orZero (sumByCost g.2) } := by
  rw [serviceBreakdownOf, mem_sortS] at he
  have hf := List.of_mem_filter he
  have hm := List.mem_of_mem_filter he
  obtain ⟨g, hg, hge⟩ := List.mem_map.mp hm
  simp only [Bool.and_eq_true, decide_eq_true_eq] at hf
  exact ⟨hf.1.1, hf.1.2, hf.2, g, hg, hge.symm⟩

theorem mem_resourceGroupCostsOf (data : List UsageRecord) (e : NamedCost)
    (he : e ∈ resourceGroupCostsOf data) :
    e.name ≠ "null" ∧ e.name ≠ "undefined" ∧ jsGt e.cost (.num 0) = true ∧
      ∃ g ∈ groupByKey (fun r => keyString r.resourceGroupName) data,
        e = { name := (jsOrStr g.1 "Unassigned").take 30
              cost := orZero (sumByCost g.2) } := by
  rw [resourceGroupCostsOf] at he
  have he2 : e ∈ sortS descLeC
      (((groupByKey (fun r => keyString r.resourceGroupName) data).map fun g =>
          { name := (jsOrStr g.1 "Unassigned").take 30
            cost := orZero (sumByCost g.2) }).filter fun e =>
        decide (e.name ≠ "null") && decide (e.name ≠ "undefined") &&
          jsGt e.cost (.num 0)) := List.take_subset 5 _ he
  rw [mem_sortS] at he2
  have hf := List.of_mem_filter he2
  have hm := List.mem_of_mem_filter he2
  obtain ⟨g, hg, hge⟩ := List.mem_map.mp hm
  simp only [Bool.and_eq_true, decide_eq_true_eq] at hf
  exact ⟨hf.1.1, hf.1.2, hf.2, g, hg, hge.symm⟩

theorem serviceBreakdownOf_numeric (data : List UsageRecord) (h : NumericCosts data) :
    ∀ e ∈ serviceBreakdownOf data, ∃ q, e.value = CostVal.num q := by
  intro e he
  obtain ⟨-, -, -, g, hg, rfl⟩ := mem_serviceBreakdownOf data e he
  exact ⟨_, sumByCost_numeric g.2
    (fun r hr => h r (groupByKey_member_mem _ data g hg r hr))⟩

theorem resourceGroupCostsOf_numeric (data : List UsageRecord) (h : NumericCosts data) :
    ∀ e ∈ resourceGroupCostsOf data, ∃ q, e.cost = CostVal.num q := by
  intro e he
  obtain ⟨-, -, -, g, hg, rfl⟩ := mem_resourceGroupCostsOf data e he
  exact ⟨_, sumByCost_numeric g.2
    (fun r hr => h r (groupByKey_member_mem _ data g hg r hr))⟩

/-! ### The comparators on numeric entries -/

theorem jsGt_num (p q : ℚ) : jsGt (.num p) (.num q) = decide (q < p) := rfl

theorem jsGt_num0_iff (v : CostVal) :
    jsGt v (.num 0) = true ↔ ∃ q, toNumber v = some q ∧ 0 < q := by
  cases v with
  | str s =>
    simp only [jsGt, toNumber]
    cases h : strToNum s with
    | none => simp [h]
    | some q => simp [h]
  | _ => simp [jsGt, toNumber]

theorem descLeV_num (a b : NamedValue) (p q : ℚ) (ha : a.value = .num p)
    (hb : b.value = .num q) : descLeV a b = true ↔ q ≤ p := by
  rw [descLeV, cmpAscV, ha, hb, jsGt_num, jsGt_num]
  rcases lt_trichotomy p q with h | h | h
  · simp [h, not_lt_of_lt h]
  · simp [h, lt_irrefl]
  · simp [h, not_lt_of_lt h, le_of_lt h]

theorem descLeC_num (a b : NamedCost) (p q : ℚ) (ha : a.cost = .num p)
    (hb : b.cost = .num q) : descLeC a b = true ↔ q ≤ p := by
  rw [descLeC, cmpAscV, ha, hb, jsGt_num, jsGt_num]
  rcases lt_trichotomy p q with h | h | h
  · simp [h, not_lt_of_lt h]
  · simp [h, lt_irrefl]
  · simp [h, not_lt_of_lt h, le_of_lt h]

theorem dateLe_iff (a b : DailyEntry) : dateLe a b = true ↔ a.date ≤ b.date := by
  rw [dateLe]
  simp [not_lt]

theorem dateLe_total (a b : DailyEntry) : dateLe a b = true ∨ dateLe b a = true := by
  rw [dateLe_iff, dateLe_iff]
  exact le_total a.date b.date

theorem dateLe_trans (a b c : DailyEntry) (h1 : dateLe a b = true)
    (h2 : dateLe b c = true) : dateLe a c = true := by
  rw [dateLe_iff] at h1 h2 ⊢
  exact le_trans h1 h2

/-! ### Sortedness of the three ordered outputs -/

theorem dailyCostsOf_sorted (data : List UsageRecord) :
    (dailyCostsOf data).Pairwise (fun a b => a.date ≤ b.date) := by
  rw [dailyCostsOf]
  refine List.Pairwise.imp (fun h => (dateLe_iff _ _).mp h) ?_
  exact sortS_pairwise dateLe (fun _ => True)
    (fun a b _ _ => dateLe_total a b)
    (fun a b c _ _ _ => dateLe_trans a b c) _ (fun _ _ => trivial)

theorem descLeV_total (a b : NamedValue) (ha : ∃ q, a.value = CostVal.num q)
    (hb : ∃ q, b.value = CostVal.num q) :
    descLeV a b = true ∨ descLeV b a = true := by
  obtain ⟨p, hp⟩ := ha
  obtain ⟨q, hq⟩ := hb
  rw [descLeV_num a b p q hp hq, descLeV_num b a q p hq hp]
  exact (le_total q p).imp id id

theorem descLeV_trans (a b c : NamedValue) (ha : ∃ q, a.value = CostVal.num q)
    (hb : ∃ q, b.value = CostVal.num q) (hc : ∃ q, c.value = CostVal.num q)
    (h1 : descLeV a b = true) (h2 : descLeV b c = true) : descLeV a c = true := by
  obtain ⟨p, hp⟩ := ha
  obtain ⟨q, hq⟩ := hb
  obtain ⟨s, hs⟩ := hc
  rw [descLeV_num a b p q hp hq] at h1
  rw [descLeV_num b c q s hq hs] at h2
  rw [descLeV_num a c p s hp hs]
  exact le_trans h2 h1

theorem descLeC_total (a b : NamedCost) (ha : ∃ q, a.cost = CostVal.num q)
    (hb : ∃ q, b.cost = CostVal.num q) :
    descLeC a b = true ∨ descLeC b a = true := by
  obtain ⟨p, hp⟩ := ha
  obtain ⟨q, hq⟩ := hb
  rw [descLeC_num a b p q hp hq, descLeC_num b a q p hq hp]
  exact (le_total q p).imp id id

theorem descLeC_trans (a b c : NamedCost) (ha : ∃ q, a.cost = CostVal.num q)
    (hb : ∃ q, b.cost = CostVal.num q) (hc : ∃ q, c.cost = CostVal.num q)
    (h1 : descLeC a b = true) (h2 : descLeC b c = true) : descLeC a c = true := by
  obtain ⟨p, hp⟩ := ha
  obtain ⟨q, hq⟩ := hb
  obtain ⟨s, hs⟩ := hc
  rw [descLeC_num a b p q hp hq] at h1
  rw [descLeC_num b c q s hq hs] at h2
  rw [descLeC_num a c p s hp hs]
  exact le_trans h2 h1

theorem serviceBreakdownOf_sorted (data : List UsageRecord) (h : NumericCosts data) :
    (serviceBreakdownOf data).Pairwise (fun a b => costQ b.value ≤ costQ a.value) := by
  have hnum := serviceBreakdownOf_numeric data h
  rw [serviceBreakdownOf] at hnum ⊢
  have hs := sortS_pairwise descLeV (fun e => ∃ q, e.value = CostVal.num q)
    descLeV_total descLeV_trans _
    (fun e he => hnum e ((mem_sortS _ _ e).mpr he))
  refine List.Pairwise.imp_of_mem ?_ hs
  intro a b ha hb hab
  obtain ⟨p, hp⟩ := hnum a ha
  obtain ⟨q, hq⟩ := hnum b hb
  rw [hp, hq]
  simpa [costQ] using (descLeV_num a b p q hp hq).mp hab

theorem resourceGroupCostsOf_sorted (data : List UsageRecord) (h : NumericCosts data) :
    (resourceGroupCostsOf data).Pairwise (fun a b => costQ b.cost ≤ costQ a.cost) := by
  rw [resourceGroupCostsOf]
  have hnum : ∀ e ∈ (((groupByKey (fun r => keyString r.resourceGroupName) data).map fun g =>
      ({ name := (jsOrStr g.1 "Unassigned").take 30
         cost := orZero (sumByCost g.2) } : NamedCost)).filter fun e =>
        decide (e.name ≠ "null") && decide (e.name ≠ "undefined") &&
          jsGt e.cost (.num 0)),
      ∃ q, e.cost = CostVal.num q := by
    intro e he
    obtain ⟨g, hg, hge⟩ := List.mem_map.mp (List.mem_of_mem_filter he)
    exact hge ▸ ⟨_, sumByCost_numeric g.2
      (fun r hr => h r (groupByKey_member_mem _ data g hg r hr))⟩
  have hs := sortS_pairwise descLeC (fun e => ∃ q, e.cost = CostVal.num q)
    descLeC_total descLeC_trans _ hnum
  refine List.Pairwise.sublist (List.take_sublist 5 _) ?_
  refine List.Pairwise.imp_of_mem ?_ hs
  intro a b ha hb hab
  obtain ⟨p, hp⟩ := hnum a ((mem_sortS _ _ a).mp ha)
  obtain ⟨q, hq⟩ := hnum b ((mem_sortS _ _ b).mp hb)
  rw [hp, hq]
  simpa [costQ] using (descLeC_num a b p q hp hq).mp hab

/-! ### Records with `undefined`-stringified keys do not contribute to the
filtered breakdowns -/

theorem filter_map_filter_key {β : Type} (gs : List (String × List UsageRecord))
    (mk : String × List UsageRecord → β) (q : β → Bool) (K : String)
    (hqk : ∀ g, g.1 = K → q (mk g) = false) :
    ((gs.filter (fun g => !decide (g.1 = K))).map mk).filter q = (gs.map mk).filter q := by
  induction gs with
  | nil => rfl
  | cons g gs ih =>
    by_cases hg : g.1 = K
    · have hq := hqk g hg
      simp [List.filter_cons, hg, hq, ih]
    · by_cases hq : q (mk g) = true
      · simp [List.filter_cons, hg, hq, ih]
      · simp [List.filter_cons, hg, hq, ih]

theorem filter_filter_subsume {β : Type} (l : List β) (p s : β → Bool)
    (hps : ∀ x, s x = true → p x = true) :
    (l.filter p).filter s = l.filter s := by
  induction l with
  | nil => rfl
  | cons x xs ih =>
    by_cases hs : s x = true
    · have hp := hps x hs
      simp [List.filter_cons, hp, hs, ih]
    · by_cases hp : p x = true
      · simp [List.filter_cons, hp, hs, ih]
      · simp [List.filter_cons, hp, hs, ih]

theorem serviceBreakdownOf_filter_key (data : List UsageRecord) :
    serviceBreakdownOf
        (data.filter fun r => !decide (keyString r.serviceFamily = "undefined")) =
      serviceBreakdownOf data := by
  rw [serviceBreakdownOf, serviceBreakdownOf]
  congr 1
  rw [groupByKey_filter_ne]
  refine filter_map_filter_key _ _ _ _ ?_
  intro g hg
  show (decide ((jsOrStr g.1 "Others") ≠ "null") &&
      decide ((jsOrStr g.1 "Others") ≠ "undefined") &&
      jsGt (orZero (sumByCost g.2)) (CostVal.num 0)) = false
  rw [hg]
  have hname : jsOrStr "undefined" "Others" = "undefined" := rfl
  rw [hname]
  simp

theorem serviceBreakdownOf_drop_absent (data : List UsageRecord) :
    serviceBreakdownOf (data.filter fun r => !decide (r.serviceFamily = FieldVal.jsUndefined)) =
      serviceBreakdownOf data := by
  have h1 := serviceBreakdownOf_filter_key
    (data.filter fun r => !decide (r.serviceFamily = FieldVal.jsUndefined))
  have h2 := serviceBreakdownOf_filter_key data
  rw [← h2, ← h1]
  congr 1
  refine filter_filter_subsume data _ _ ?_
  intro r hr
  simp only [Bool.not_eq_true', decide_eq_false_iff_not] at hr ⊢
  intro hu
  rw [hu] at hr
  exact hr rfl

theorem resourceGroupCostsOf_filter_key (data : List UsageRecord) :
    resourceGroupCostsOf
        (data.filter fun r => !decide (keyString r.resourceGroupName = "undefined")) =
      resourceGroupCostsOf data := by
  have hinner :
      ((groupByKey (fun r => keyString r.resourceGroupName)
            (data.filter fun r => !decide (keyString r.resourceGroupName = "undefined"))).map fun g =>
          ({ name := (jsOrStr g.1 "Unassigned").take 30
             cost := orZero (sumByCost g.2) } : NamedCost)).filter
          (fun e => decide (e.name ≠ "null") && decide (e.name ≠ "undefined") &&
            jsGt e.cost (.num 0)) =
      ((groupByKey (fun r => keyString r.resourceGroupName) data).map fun g =>
          ({ name := (jsOrStr g.1 "Unassigned").take 30
             cost := orZero (sumByCost g.2) } : NamedCost)).filter
          (fun e => decide (e.name ≠ "null") && decide (e.name ≠ "undefined") &&
            jsGt e.cost (.num 0)) := by
    rw [groupByKey_filter_ne]
    refine filter_map_filter_key _ _ _ _ ?_
    intro g hg
    have hname : (jsOrStr g.1 "Unassigned").take 30 = "undefined" := by
      rw [hg]
      decide
    simp [hname]
  rw [resourceGroupCostsOf, resourceGroupCostsOf, hinner]

theorem resourceGroupCostsOf_drop_absent (data : List UsageRecord) :
    resourceGroupCostsOf
        (data.filter fun r => !decide (r.resourceGroupName = FieldVal.jsUndefined)) =
      resourceGroupCostsOf data := by
  have h1 := resourceGroupCostsOf_filter_key
    (data.filter fun r => !decide (r.resourceGroupName = FieldVal.jsUndefined))
  have h2 := resourceGroupCostsOf_filter_key data
  rw [← h2, ← h1]
  congr 1
  refine filter_filter_subsume data _ _ ?_
  intro r hr
  simp only [Bool.not_eq_true', decide_eq_false_iff_not] at hr ⊢
  intro hu
  rw [hu] at hr
  exact hr rfl

/-! ### Concrete inputs for counterexamples and witnesses -/

/-- A record whose cost field is the non-numeric string "abc" (a cell such
as "N/A" survives the decoder's `dynamicTyping` as a string). -/
def recStrCost : UsageRecord :=
  { date := .jsUndefined
    costInBillingCurrency := .str "abc"
    serviceFamily := .jsUndefined
    resourceId := .jsUndefined
    resourceGroupName := .jsUndefined }

/-- A record with a numeric cost and every grouping field absent. -/
def recNoFields : UsageRecord :=
  { date := .jsUndefined
    costInBillingCurrency := .num 5
    serviceFamily := .jsUndefined
    resourceId := .jsUndefined
    resourceGroupName := .jsUndefined }

def recA : UsageRecord :=
  { date := .str "2024-01-01"
    costInBillingCurrency := .num 10
    serviceFamily := .str "Compute"
    resourceId := .str "sub/rg/vm1"
    resourceGroupName := .str "rg1" }

def recB : UsageRecord :=
  { date := .str "2024-01-01"
    costInBillingCurrency := .num 5
    serviceFamily := .str "Storage"
    resourceId := .str "sub/rg/disk1"
    resourceGroupName := .str "rg1" }

def recC : UsageRecord :=
  { date := .str "2024-01-02"
    costInBillingCurrency := .num 20
    serviceFamily := .str "Compute"
    resourceId := .str "sub/rg/vm2"
    resourceGroupName := .str "rg2" }

/-- The three well-formed records of the specification's worked example. -/
def exampleData : List UsageRecord := [recA, recB, recC]

/-! ### The claims -/

/-- C1, counterexample: the claim says a non-numeric cost contributes 0 to
`totalCost`, but for the single record whose cost is the string "abc" the
code's `_.sumBy(data, 'costInBillingCurrency') || 0` lets the string survive
both the JS `+` fold and the `|| 0` default (a non-empty string is truthy),
so `totalCost` is the string "abc", not the number 0. -/
theorem C1_counterexample :
    (aggregate [recStrCost]).totalCost = CostVal.str "abc" ∧
      (aggregate [recStrCost]).totalCost ≠ CostVal.num 0 := by
  decide

/-- C1, amended: when every record's cost is a number, `null`, or absent
(what the decoder produces for numeric or empty cost cells), `totalCost`
equals the number summing `costInBillingCurrency` over all records, with
absent and `null` contributing 0; non-numeric string costs instead
propagate as strings (see the counterexample). -/
theorem C1_totalCost_amended (data : List UsageRecord) (h : NumericCosts data) :
    (aggregate data).totalCost =
      CostVal.num ((data.map fun r => costQ r.costInBillingCurrency).sum) := by
  rw [aggregate_totalCost, totalCostOf, sumByCost_numeric data h]

theorem C1_amended_witness :
    NumericCosts exampleData ∧
      (aggregate exampleData).totalCost = CostVal.num 35 := by
  refine ⟨by decide, ?_⟩
  rw [C1_totalCost_amended exampleData (by decide)]
  norm_num [exampleData, recA, recB, recC, costQ]

/-- C2: over numeric-or-absent costs, the date partition neither loses nor
double-counts cost: the sum of `cost` over the `dailyCosts` entries equals
`totalCost`. -/
theorem C2_dailyCosts_sum_eq_totalCost (data : List UsageRecord)
    (h : NumericCosts data) :
    ((aggregate data).dailyCosts.map fun e => costQ e.cost).sum =
      costQ (aggregate data).totalCost := by
  rw [aggregate_dailyCosts, aggregate_totalCost, totalCostOf,
    sumByCost_numeric data h, dailyCostsOf]
  have hperm := ((sortS_perm dateLe
    ((groupByKey (fun r => keyString r.date) data).map fun g =>
      ({ date := jsOrStr g.1 "Unknown", cost := orZero (sumByCost g.2) } : DailyEntry))).map
      (fun e => costQ e.cost))
  rw [hperm.sum_eq, List.map_map]
  have hcongr : ∀ g ∈ groupByKey (fun r => keyString r.date) data,
      ((fun e => costQ e.cost) ∘ fun g =>
        ({ date := jsOrStr g.1 "Unknown", cost := orZero (sumByCost g.2) } : DailyEntry)) g =
      (fun g => ((g.2.map fun r => costQ r.costInBillingCurrency).sum)) g := by
    intro g hg
    show costQ (orZero (sumByCost g.2)) = _
    rw [sumByCost_numeric g.2 (fun r hr => h r (groupByKey_member_mem _ data g hg r hr))]
    rfl
  rw [List.map_congr_left hcongr, groupByKey_sum]
  rfl

theorem C2_witness :
    NumericCosts exampleData ∧
      ((aggregate exampleData).dailyCosts.map fun e => costQ e.cost).sum =
        costQ (aggregate exampleData).totalCost :=
  ⟨by decide, C2_dailyCosts_sum_eq_totalCost exampleData (by decide)⟩

/-- C3: `dailyCosts` is ascending by the date string (lexicographic),
`serviceBreakdown` and `resourceGroupCosts` are descending by value / cost,
and `resourceGroupCosts` keeps at most 5 entries (over numeric-or-absent
costs, for which the JS comparators coincide with the numeric order). -/
theorem C3_ordering (data : List UsageRecord) (h : NumericCosts data) :
    (aggregate data).dailyCosts.Pairwise (fun a b => a.date ≤ b.date) ∧
      (aggregate data).serviceBreakdown.Pairwise
        (fun a b => costQ b.value ≤ costQ a.value) ∧
      (aggregate data).resourceGroupCosts.Pairwise
        (fun a b => costQ b.cost ≤ costQ a.cost) ∧
      (aggregate data).resourceGroupCosts.length ≤ 5 := by
  simp only [aggregate_dailyCosts, aggregate_serviceBreakdown,
    aggregate_resourceGroupCosts]
  refine ⟨dailyCostsOf_sorted data, serviceBreakdownOf_sorted data h,
    resourceGroupCostsOf_sorted data h, ?_⟩
  rw [resourceGroupCostsOf]
  exact List.length_take_le 5 _

theorem C3_witness :
    NumericCosts exampleData ∧
      (aggregate exampleData).dailyCosts.Pairwise (fun a b => a.date ≤ b.date) ∧
      (aggregate exampleData).resourceGroupCosts.length ≤ 5 := by
  have h := C3_ordering exampleData (by decide)
  exact ⟨by decide, h.1, h.2.2.2⟩

/-- C4: `peakUsage` is a maximal-cost entry of `dailyCosts`, placed after a
prefix of strictly smaller costs (so ties go to the first such entry in the
ascending-by-date order), and the sentinel is produced exactly when
`dailyCosts` is empty (over numeric-or-absent costs). -/
theorem C4_peakUsage (data : List UsageRecord) (h : NumericCosts data) :
    ((aggregate data).dailyCosts = [] →
        (aggregate data).peakUsage = { date := "N/A", cost := .num 0 }) ∧
      ((aggregate data).dailyCosts ≠ [] →
        ∃ l1 l2, (aggregate data).dailyCosts =
            l1 ++ (aggregate data).peakUsage :: l2 ∧
          (∀ e ∈ l1, costQ e.cost < costQ (aggregate data).peakUsage.cost) ∧
          ∀ e ∈ (aggregate data).dailyCosts,
            costQ e.cost ≤ costQ (aggregate data).peakUsage.cost) := by
  simp only [aggregate_dailyCosts, aggregate_peakUsage]
  constructor
  · intro hd
    rw [peakUsageOf, hd]
    rfl
  · intro hd
    obtain ⟨d, ds, hds⟩ := List.exists_cons_of_ne_nil hd
    have hnum : ∀ e ∈ d :: ds, ∃ q, e.cost = CostVal.num q := by
      rw [← hds]
      exact dailyCostsOf_numeric data h
    obtain ⟨qd, hqd⟩ := hnum d (by simp)
    obtain ⟨r, l1, l2, hf, hsplit, hl1, hmax⟩ := maxBy_go_spec ds d hnum
    have hpeak : peakUsageOf data = r := by
      rw [peakUsageOf, hds, maxByCost, List.foldl_cons]
      have hinit : maxByStep none d = some d := by
        simp [maxByStep, hqd]
      rw [hinit, hf]
      rfl
    rw [hpeak, hds]
    exact ⟨l1, l2, hsplit, hl1, hmax⟩

theorem C4_witness :
    (aggregate [recA]).dailyCosts ≠ [] ∧
      ∀ e ∈ (aggregate [recA]).dailyCosts,
        costQ e.cost ≤ costQ (aggregate [recA]).peakUsage.cost := by
  have hne : (aggregate [recA]).dailyCosts ≠ [] := by
    simp [aggregate, dailyCostsOf, groupByKey, keyString, recA, sumByCost, baseSum,
      sumStep, orZero, jsOrStr, sortS, insertS]
  obtain ⟨l1, l2, -, -, hmax⟩ := (C4_peakUsage [recA] (by decide)).2 hne
  exact ⟨hne, hmax⟩

/-- C5: aggregating the empty sequence yields exactly the all-zero /
all-sentinel Summary. -/
theorem C5_aggregate_empty :
    aggregate [] =
      { totalCost := .num 0
        dailyAverage := .num 0
        serviceBreakdown := []
        dailyCosts := []
        peakUsage := { date := "N/A", cost := .num 0 }
        resourceCosts := { name := "N/A", cost := .num 0 }
        resourceGroupCosts := []
        topService := { name := "N/A", value := .num 0 } } := by
  simp [aggregate, totalCostOf, dailyAverageOf, dailyCostsOf, peakUsageOf,
    serviceBreakdownOf, resourceListOf, resourceGroupCostsOf, groupByKey, sortS,
    maxByCost, sumByCost, orZero]

/-- C6: every entry surviving into `serviceBreakdown` or
`resourceGroupCosts` has a name different from the literal strings "null"
and "undefined" and a strictly positive coerced value. -/
theorem C6_breakdown_entries (data : List UsageRecord) :
    (∀ e ∈ (aggregate data).serviceBreakdown,
        e.name ≠ "null" ∧ e.name ≠ "undefined" ∧
          ∃ q, toNumber e.value = some q ∧ 0 < q) ∧
      ∀ e ∈ (aggregate data).resourceGroupCosts,
        e.name ≠ "null" ∧ e.name ≠ "undefined" ∧
          ∃ q, toNumber e.cost = some q ∧ 0 < q := by
  simp only [aggregate_serviceBreakdown, aggregate_resourceGroupCosts]
  constructor
  · intro e he
    obtain ⟨h1, h2, h3, -⟩ := mem_serviceBreakdownOf data e he
    exact ⟨h1, h2, (jsGt_num0_iff e.value).mp h3⟩
  · intro e he
    obtain ⟨h1, h2, h3, -⟩ := mem_resourceGroupCostsOf data e he
    exact ⟨h1, h2, (jsGt_num0_iff e.cost).mp h3⟩

theorem C6_witness :
    ({ name := "Compute", value := CostVal.num 30 } : NamedValue) ∈
        (aggregate exampleData).serviceBreakdown ∧
      ("Compute" : String) ≠ "null" ∧ ("Compute" : String) ≠ "undefined" ∧
        ∃ q, toNumber (CostVal.num 30) = some q ∧ 0 < q := by
  have hsb : (aggregate exampleData).serviceBreakdown =
      [{ name := "Compute", value := CostVal.num 30 },
        { name := "Storage", value := CostVal.num 5 }] := by
    simp [aggregate, serviceBreakdownOf, groupByKey, keyString, exampleData, recA,
      recB, recC, sumByCost, baseSum, sumStep, jsAdd, toNumber, orZero, jsOrStr,
      sortS, insertS, descLeV, cmpAscV, jsGt]
    norm_num [sortS, insertS, descLeV, cmpAscV, jsGt, toNumber]
  have hmem : ({ name := "Compute", value := CostVal.num 30 } : NamedValue) ∈
      (aggregate exampleData).serviceBreakdown := by
    rw [hsb]
    simp
  exact ⟨hmem, (C6_breakdown_entries exampleData).1
    { name := "Compute", value := CostVal.num 30 } hmem⟩

/-- C7, counterexample: for the single record with every grouping field
absent (cost 5), the claim says it lands under "Unknown" / "Others" /
"Unassigned", but the code's groupBy stringifies the absent keys to
"undefined"; `dailyCosts` labels it "undefined" (not "Unknown") and the
literal-string filter removes it from `serviceBreakdown` and
`resourceGroupCosts` entirely. -/
theorem C7_counterexample :
    (aggregate [recNoFields]).dailyCosts =
        [{ date := "undefined", cost := CostVal.num 5 }] ∧
      (∀ e ∈ (aggregate [recNoFields]).dailyCosts, e.date ≠ "Unknown") ∧
      (aggregate [recNoFields]).serviceBreakdown = [] ∧
      (aggregate [recNoFields]).resourceGroupCosts = [] := by
  have hd : (aggregate [recNoFields]).dailyCosts =
      [{ date := "undefined", cost := CostVal.num 5 }] := by
    simp [aggregate, dailyCostsOf, groupByKey, keyString, recNoFields, sumByCost,
      baseSum, sumStep, orZero, jsOrStr, sortS, insertS]
  have h30 : (("undefined" : String).take 30) = "undefined" := by decide
  refine ⟨hd, ?_, ?_, ?_⟩
  · rw [hd]
    simp
  · simp [aggregate, serviceBreakdownOf, groupByKey, keyString, recNoFields,
      sumByCost, baseSum, sumStep, orZero, jsOrStr, sortS, insertS]
  · simp [aggregate, resourceGroupCostsOf, groupByKey, keyString, recNoFields,
      sumByCost, baseSum, sumStep, orZero, jsOrStr, sortS, insertS, h30]

/-- C7, amended: `_.groupBy` stringifies an absent key to "undefined" and
the `|| default` labels fire only on the empty string.  So a record with an
absent date appears in `dailyCosts` under the label "undefined" ("Unknown"
is used exactly for empty-string dates), while the groups of records with
an absent `serviceFamily` / `resourceGroupName` are removed by the
literal-string filter: no entry of `serviceBreakdown` or
`resourceGroupCosts` is labelled "undefined". -/
theorem C7_amended (data : List UsageRecord) (r : UsageRecord) (hr : r ∈ data) :
    (r.date = FieldVal.jsUndefined →
        ∃ e ∈ (aggregate data).dailyCosts, e.date = "undefined") ∧
      (r.date = FieldVal.str "" →
        ∃ e ∈ (aggregate data).dailyCosts, e.date = "Unknown") ∧
      (∀ e ∈ (aggregate data).serviceBreakdown, e.name ≠ "undefined") ∧
      (∀ e ∈ (aggregate data).resourceGroupCosts, e.name ≠ "undefined") := by
  simp only [aggregate_dailyCosts, aggregate_serviceBreakdown,
    aggregate_resourceGroupCosts]
  refine ⟨?_, ?_, ?_, ?_⟩
  · intro hd
    obtain ⟨g, hg, hk⟩ := groupByKey_exists_key (fun r => keyString r.date) data r hr
    rw [hd] at hk
    refine ⟨{ date := jsOrStr g.1 "Unknown", cost := orZero (sumByCost g.2) }, ?_, ?_⟩
    · rw [dailyCostsOf, mem_sortS]
      exact List.mem_map_of_mem _ hg
    · show jsOrStr g.1 "Unknown" = "undefined"
      rw [hk]
      rfl
  · intro hd
    obtain ⟨g, hg, hk⟩ := groupByKey_exists_key (fun r => keyString r.date) data r hr
    rw [hd] at hk
    refine ⟨{ date := jsOrStr g.1 "Unknown", cost := orZero (sumByCost g.2) }, ?_, ?_⟩
    · rw [dailyCostsOf, mem_sortS]
      exact List.mem_map_of_mem _ hg
    · show jsOrStr g.1 "Unknown" = "Unknown"
      rw [hk]
      rfl
  · intro e he
    exact (mem_serviceBreakdownOf data e he).2.1
  · intro e he
    exact (mem_resourceGroupCostsOf data e he).2.1

theorem C7_amended_witness :
    recNoFields ∈ [recNoFields] ∧
      ∃ e ∈ (aggregate [recNoFields]).dailyCosts, e.date = "undefined" := by
  refine ⟨by decide, ?_⟩
  exact (C7_amended [recNoFields] recNoFields (by decide)).1 rfl

/-- C8: the aggregation is total on decoded record sequences — the happy
path always stores a Summary and reports no error — and the sentinel
objects stand in exactly where the corresponding lists are empty. -/
theorem C8_totality (data : List UsageRecord) :
    processCSVData (ParseResults.obj (some data)) =
        { dashboardData := aggregate data, error := none } ∧
      ((aggregate data).dailyCosts = [] →
        (aggregate data).peakUsage = { date := "N/A", cost := .num 0 }) ∧
      ((aggregate data).serviceBreakdown = [] →
        (aggregate data).topService = { name := "N/A", value := .num 0 }) ∧
      (resourceListOf data = [] →
        (aggregate data).resourceCosts = { name := "N/A", cost := .num 0 }) := by
  refine ⟨rfl, ?_, ?_, ?_⟩
  · intro hd
    rw [aggregate_peakUsage, peakUsageOf]
    rw [aggregate_dailyCosts] at hd
    rw [hd]
    rfl
  · intro hs
    rw [aggregate_topService]
    rw [aggregate_serviceBreakdown] at hs
    rw [hs]
    rfl
  · intro hr
    rw [aggregate_resourceCosts, hr]
    rfl

theorem C8_witness :
    processCSVData (ParseResults.obj (some [])) =
        { dashboardData := aggregate [], error := none } ∧
      (aggregate []).peakUsage = { date := "N/A", cost := CostVal.num 0 } := by
  have h := C8_totality []
  have hd : (aggregate []).dailyCosts = [] := by
    simp [aggregate, dailyCostsOf, groupByKey, sortS]
  exact ⟨h.1, h.2.1 hd⟩

/-- C9: when the try body faults, the catch boundary substitutes the
all-zero / all-sentinel Summary together with the reported error message;
the handler itself is a total function, so the fault never reaches the
caller. -/
theorem C9_fault_boundary (results : ParseResults) (e : String)
    (h : tryAggregate results = Except.error e) :
    processCSVData results =
      { dashboardData :=
          { totalCost := .num 0
            dailyAverage := .num 0
            serviceBreakdown := []
            dailyCosts := []
            peakUsage := { date := "N/A", cost := .num 0 }
            resourceCosts := { name := "N/A", cost := .num 0 }
            resourceGroupCosts := []
            topService := { name := "N/A", value := .num 0 } }
        error := some ("Error processing data: " ++ e) } := by
  unfold processCSVData
  rw [h]
  rfl

theorem C9_witness :
    processCSVData ParseResults.nullResults =
      { dashboardData :=
          { totalCost := .num 0
            dailyAverage := .num 0
            serviceBreakdown := []
            dailyCosts := []
            peakUsage := { date := "N/A", cost := .num 0 }
            resourceCosts := { name := "N/A", cost := .num 0 }
            resourceGroupCosts := []
            topService := { name := "N/A", value := .num 0 } }
        error := some ("Error processing data: " ++
          "Cannot read properties of null (reading 'data')") } :=
  C9_fault_boundary ParseResults.nullResults
    "Cannot read properties of null (reading 'data')" rfl

/-- C10: the cost of a record with an absent `serviceFamily` (resp.
`resourceGroupName`) is entirely excluded from `serviceBreakdown` (resp.
`resourceGroupCosts`): deleting all such records leaves the list unchanged,
and no surviving entry carries the stringified label "undefined". -/
theorem C10_absent_records_excluded (data : List UsageRecord) :
    (aggregate data).serviceBreakdown =
        (aggregate (data.filter fun r =>
          !decide (r.serviceFamily = FieldVal.jsUndefined))).serviceBreakdown ∧
      (aggregate data).resourceGroupCosts =
        (aggregate (data.filter fun r =>
          !decide (r.resourceGroupName = FieldVal.jsUndefined))).resourceGroupCosts ∧
      (∀ e ∈ (aggregate data).serviceBreakdown, e.name ≠ "undefined") ∧
      (∀ e ∈ (aggregate data).resourceGroupCosts, e.name ≠ "undefined") := by
  simp only [aggregate_serviceBreakdown, aggregate_resourceGroupCosts]
  refine ⟨(serviceBreakdownOf_drop_absent data).symm,
    (resourceGroupCostsOf_drop_absent data).symm, ?_, ?_⟩
  · intro e he
    exact (mem_serviceBreakdownOf data e he).2.1
  · intro e he
    exact (mem_resourceGroupCostsOf data e he).2.1

theorem C10_witness :
    (aggregate [recNoFields, recA]).serviceBreakdown =
      (aggregate [recA]).serviceBreakdown := by
  have h := (C10_absent_records_excluded [recNoFields, recA]).1
  have hf : ([recNoFields, recA].filter fun r =>
      !decide (r.serviceFamily = FieldVal.jsUndefined)) = [recA] := by decide
  rw [h, hf]

end TwsDashboard
